import Mathlib

/-!
Shallow embedding of the transaction-processing core of the repository
(`src/chain/src/transaction.rs`) and of the Web3 client account operations
(`src/web3/src/account.rs`), together with proofs of the specification
claims about them.

Machine words (`H256`, `H160`, `U256`) are embedded as `Nat`-carrying
structures: the claims under verification are about map lookups, queue
order and error propagation, never about word arithmetic or overflow.
Rust's `DashMap` is embedded as an association list whose lookup returns
the first binding of a key; `VecDeque` with `push_back` is a Lean list
with append at the tail.  A Rust method taking `&self` is embedded as a
function consuming the state and returning only a result.
-/

/-- A 256-bit hash (`ethereum_types::H256`), embedded as a natural number. -/
structure H256 where
  val : Nat
deriving DecidableEq, Repr

/-- Rust's `H256::to_string`, a hex rendering of the hash.  The exact digit
string is irrelevant to the claims; what matters is that it is an injective
function of the hash, which holds because `Nat.toDigits` is injective on a
fixed base. -/
def H256.to_string (h : H256) : String :=
  "0x" ++ String.mk (Nat.toDigits 16 h.val)

/-- An account address (`types::account::Account`, an `H160`), embedded as a
natural number. -/
structure Account where
  val : Nat
deriving DecidableEq, Repr

/-- A transaction (`types::transaction::Transaction`): sender, recipient,
value, nonce, optional payload, and the content hash computed at creation
(`Option<H256>`, as seen in `transaction.hash` at the use sites in src). -/
structure Transaction where
  sender : Account
  recipient : Account
  value : Nat
  nonce : Nat
  data : Option (List Nat)
  hash : Option H256
deriving DecidableEq, Repr

/-- A transaction receipt (`types::transaction::TransactionReceipt`): hash of
the originating transaction, execution status, block number, gas consumed. -/
structure TransactionReceipt where
  transaction_hash : H256
  success : Bool
  block_number : Nat
  gas_used : Nat
deriving DecidableEq, Repr

/-- The chain error type (`ChainError` of `src/chain/src/error.rs`, whose
definition is not under src).  The `TransactionNotFound` variant and its
`String` payload are exactly as used at the src call site
`ChainError::TransactionNotFound(hash.to_string())`; all further variants of
the enum are abstracted into `Other` so that "never returns any other error"
is a contentful statement. -/
inductive ChainError where
  | TransactionNotFound (hash : String)
  | Other (msg : String)
deriving DecidableEq, Repr

/-- Lookup in an association list embedding `DashMap::get`: the first binding
of the key, if any. -/
def assocGet {β : Type} (h : H256) : List (H256 × β) → Option β
  | [] => none
  | (k, v) :: rest => if k = h then some v else assocGet h rest

/-- The transaction storage (`TransactionStorage` of
`src/chain/src/transaction.rs`): the mempool `VecDeque`, the processed index
and the receipts index. -/
structure TransactionStorage where
  mempool : List Transaction
  processed : List (H256 × Transaction)
  receipts : List (H256 × TransactionReceipt)
deriving DecidableEq, Repr

/-- `TransactionStorage::new`: all three containers empty. -/
def TransactionStorage.new : TransactionStorage :=
  { mempool := [], processed := [], receipts := [] }

/-- `TransactionStorage::send_transaction`: `self.mempool.push_back(transaction)`,
nothing else; no duplicate check, no size limit, no return value. -/
def TransactionStorage.send_transaction (s : TransactionStorage)
    (transaction : Transaction) : TransactionStorage :=
  { s with mempool := s.mempool ++ [transaction] }

/-- `TransactionStorage::get_transaction_receipt`: look the hash up in the
receipts index; `None` becomes `ChainError::TransactionNotFound(hash.to_string())`
via `ok_or_else` and `?`, a hit is cloned and returned in `Ok`. -/
def TransactionStorage.get_transaction_receipt (s : TransactionStorage)
    (hash : H256) : Except ChainError TransactionReceipt :=
  match assocGet hash s.receipts with
  | none => .error (ChainError.TransactionNotFound (H256.to_string hash))
  | some r => .ok r

/-- Modelled from the spec: the Transaction Store's
`commit(transaction, receipt)` is not among the sources under src (only the
struct it writes to is).  Per §4.4 it "inserts into the processed index and
the receipt index; fails fatally (programming error, not a normal error) if
the hash already exists".  The fatal failure is embedded as `none`; a
transaction without a computed hash cannot be committed. -/
def TransactionStorage.commit (s : TransactionStorage)
    (transaction : Transaction) (receipt : TransactionReceipt) :
    Option TransactionStorage :=
  match transaction.hash with
  | none => none
  | some h =>
      if (assocGet h s.receipts).isSome then none
      else some { s with
        processed := (h, transaction) :: s.processed,
        receipts := (h, receipt) :: s.receipts }

/-- Modelled from the spec: the Block Producer's `drain(max_count)` is not
among the sources under src.  Per §4.1 it "atomically removes and returns an
ordered sequence of up to `max_count` oldest transactions (fewer if the pool
holds less)". -/
def TransactionStorage.drain (s : TransactionStorage) (max_count : Nat) :
    List Transaction × TransactionStorage :=
  (s.mempool.take max_count, { s with mempool := s.mempool.drop max_count })

/-- Submit a whole list of transactions in order, oldest first. -/
def TransactionStorage.submitList (s : TransactionStorage) :
    List Transaction → TransactionStorage
  | [] => s
  | t :: ts => (s.send_transaction t).submitList ts

/-- Perform a sequence of drains, concatenating the drained batches in order. -/
def TransactionStorage.drainSeq (s : TransactionStorage) :
    List Nat → List Transaction × TransactionStorage
  | [] => ([], s)
  | n :: ns =>
      let (batch, s') := s.drain n
      let (rest, s'') := s'.drainSeq ns
      (batch ++ rest, s'')

/-- The storage states reachable through the storage's operations, starting
from `new`. -/
inductive Reachable : TransactionStorage → Prop where
  | base : Reachable TransactionStorage.new
  | send (s : TransactionStorage) (t : Transaction) :
      Reachable s → Reachable (s.send_transaction t)
  | commit (s : TransactionStorage) (t : Transaction) (r : TransactionReceipt)
      (s' : TransactionStorage) :
      Reachable s → s.commit t r = some s' → Reachable s'
  | drain (s : TransactionStorage) (n : Nat) :
      Reachable s → Reachable (s.drain n).2

/-- One operation against the storage, for reasoning about call sequences. -/
inductive Op where
  | send (t : Transaction)
  | commitOp (t : Transaction) (r : TransactionReceipt)
  | drainOp (n : Nat)
  | query (h : H256)
deriving DecidableEq, Repr

/-- Execute one operation.  A failed commit is fatal (§7 `DuplicateCommit`
"must stop the offending cycle"), so it yields `none`; a receipt query
computes its result and leaves the state to continue with. -/
def stepOp (s : TransactionStorage) : Op → Option TransactionStorage
  | .send t => some (s.send_transaction t)
  | .commitOp t r => s.commit t r
  | .drainOp n => some (s.drain n).2
  | .query h =>
      let _ := s.get_transaction_receipt h
      some s

/-- Execute a sequence of operations, halting on a fatal commit. -/
def runOps : TransactionStorage → List Op → Option TransactionStorage
  | s, [] => some s
  | s, op :: rest =>
      match stepOp s op with
      | none => none
      | some s' => runOps s' rest

/-- The web3 client error type (`Web3Error` of `src/web3/src/error.rs`, whose
definition is not under src).  `TransactionSigningError` with a `String`
payload is exactly as constructed at the src call site; RPC-transport and
deserialization failures, converted by `?` from other error types, are
abstracted into their own variants. -/
inductive Web3Error where
  | TransactionSigningError (msg : String)
  | RpcError (msg : String)
  | SerdeError (msg : String)
deriving DecidableEq, Repr

/-- A JSON value (`serde_json::Value`), restricted to the shapes the embedded
client operations exchange. -/
inductive Jsonv where
  | null
  | num (n : Nat)
  | str (s : String)
deriving DecidableEq, Repr

/-- A block number (`types::block::BlockNumber`). -/
structure BlockNumber where
  val : Nat
deriving DecidableEq, Repr

/-- A secp256k1 secret key (`utils::crypto::SecretKey`), opaque to the
client code. -/
structure SecretKey where
  val : Nat
deriving DecidableEq, Repr

/-- A signed transaction (`types::transaction::SignedTransaction`): the
transaction paired with a signature the client treats as opaque. -/
structure SignedTransaction where
  transaction : Transaction
  signature : Nat
deriving DecidableEq, Repr

/-- `types::helpers::to_hex` (not under src): hex rendering of an address,
used only as an opaque parameter payload by the claims. -/
def to_hex (a : Account) : String :=
  "0x" ++ String.mk (Nat.toDigits 16 a.val)

/-- Modelled from the spec: `Web3::get_hex_blocknumber` is not among the
sources under src.  Per §6 only the "current" selector is guaranteed; `None`
selects the current block and a concrete number is rendered in hex. -/
def get_hex_blocknumber : Option BlockNumber → String
  | none => "latest"
  | some b => "0x" ++ String.mk (Nat.toDigits 16 b.val)

/-- `serde_json::from_value::<U256>` on the RPC response: a numeric JSON
value deserializes, anything else is a deserialization error converted into
`Web3Error` by `?`. -/
def from_value_u256 : Jsonv → Except Web3Error Nat
  | .num n => .ok n
  | _ => .error (Web3Error.SerdeError "invalid type for U256")

/-- The Web3 client (`Web3` of `src/web3/src/lib.rs`, whose definition is
not under src).  The only capability the claims exercise is `send_rpc`,
embedded as a function from method name and parameters to a response. -/
structure Web3 where
  send_rpc : String → List Jsonv → Except Web3Error Jsonv

/-- `Web3::get_balance_by_block`: render the block selector, assemble
`rpc_params![to_hex(address), block_number]`, send `eth_getBalanceByBlock`,
deserialize the response into a `U256`. -/
def Web3.get_balance_by_block (w : Web3) (address : Account)
    (block_number : Option BlockNumber) : Except Web3Error Nat := do
  let bn := get_hex_blocknumber block_number
  let response ← w.send_rpc "eth_getBalanceByBlock"
    [Jsonv.str (to_hex address), Jsonv.str bn]
  let balance ← from_value_u256 response
  pure balance

/-- `Web3::get_balance`: `self.get_balance_by_block(address, None).await?`
then `Ok(balance)`. -/
def Web3.get_balance (w : Web3) (address : Account) : Except Web3Error Nat := do
  let balance ← w.get_balance_by_block address none
  pure balance

/-- The Rust `format!("{:?} {}", transaction.hash, e)` prefix: a debug
rendering of the optional hash. -/
def hashDebug : Option H256 → String
  | none => "None"
  | some h => "Some(" ++ H256.to_string h ++ ")"

/-- `Web3::sign_transaction`.  `Transaction::sign` lives in the types crate,
not under src; following §9 ("model as explicit capability interfaces") it is
the `sign` capability argument, which may fail with an opaque message.  The
src body maps such a failure to
`Web3Error::TransactionSigningError(format!("{:?} {}", transaction.hash, e))`
and otherwise returns the signed transaction in `Ok`. -/
def Web3.sign_transaction (_w : Web3)
    (sign : Transaction → SecretKey → Except String SignedTransaction)
    (transaction : Transaction) (key : SecretKey) :
    Except Web3Error SignedTransaction :=
  match sign transaction key with
  | .ok signed => .ok signed
  | .error e =>
      .error (Web3Error.TransactionSigningError
        (hashDebug transaction.hash ++ " " ++ e))

/-- A concrete transaction used by the witnesses. -/
def tx0 : Transaction :=
  { sender := ⟨1⟩, recipient := ⟨2⟩, value := 5, nonce := 0,
    data := none, hash := some ⟨42⟩ }

/-- A concrete receipt for `tx0` used by the witnesses. -/
def rc0 : TransactionReceipt :=
  { transaction_hash := ⟨42⟩, success := true, block_number := 1,
    gas_used := 21000 }

/-- A concrete storage holding the committed receipt `rc0` for `tx0`,
used by the witnesses. -/
def st1 : TransactionStorage :=
  { mempool := [], processed := [(⟨42⟩, tx0)], receipts := [(⟨42⟩, rc0)] }

/-- A concrete Web3 client whose RPC always answers with a number. -/
def w0 : Web3 :=
  { send_rpc := fun _ _ => .ok (Jsonv.num 7) }

/-- A concrete signing capability that always fails. -/
def signFail : Transaction → SecretKey → Except String SignedTransaction :=
  fun _ _ => .error "bad key"

/-- A concrete secret key used by the witnesses. -/
def key0 : SecretKey := ⟨3⟩

/-- A key is absent from an association list exactly when its lookup misses. -/
lemma assocGet_eq_none_iff {β : Type} (k : H256) (l : List (H256 × β)) :
    assocGet k l = none ↔ k ∉ l.map Prod.fst := by
  induction l with
  | nil => simp [assocGet]
  | cons p rest ih =>
      obtain ⟨a, b⟩ := p
      simp only [assocGet, List.map_cons, List.mem_cons]
      by_cases hak : a = k
      · subst hak
        simp
      · rw [if_neg hak, ih]
        have hka : ¬k = a := fun hh => hak hh.symm
        simp [hka]

/-- Looking a key up after consing a different key is unchanged. -/
lemma assocGet_cons_ne {β : Type} (k a : H256) (b : β) (l : List (H256 × β))
    (hne : a ≠ k) : assocGet k ((a, b) :: l) = assocGet k l := by
  simp [assocGet, hne]

/-- Looking up the key just consed finds its value. -/
lemma assocGet_cons_self {β : Type} (k : H256) (b : β) (l : List (H256 × β)) :
    assocGet k ((k, b) :: l) = some b := by
  simp [assocGet]

/-- A successful commit binds the transaction's hash to the receipt and keeps
every other key's binding. -/
lemma commit_receipts (s : TransactionStorage) (t : Transaction)
    (r : TransactionReceipt) (s' : TransactionStorage) (k : H256)
    (ht : t.hash = some k) (hc : s.commit t r = some s') :
    (assocGet k s.receipts).isSome = false ∧
    s'.receipts = (k, r) :: s.receipts := by
  unfold TransactionStorage.commit at hc
  rw [ht] at hc
  dsimp only at hc
  by_cases hk : (assocGet k s.receipts).isSome = true
  · rw [if_pos hk] at hc
    cases hc
  · rw [if_neg hk] at hc
    cases hc
    exact ⟨Bool.eq_false_iff.mpr hk, rfl⟩

/-- A successful commit is on a transaction that carries a hash. -/
lemma commit_hash_isSome (s : TransactionStorage) (t : Transaction)
    (r : TransactionReceipt) (s' : TransactionStorage)
    (hc : s.commit t r = some s') : ∃ k, t.hash = some k := by
  unfold TransactionStorage.commit at hc
  cases ht : t.hash with
  | none => rw [ht] at hc; cases hc
  | some k => exact ⟨k, rfl⟩

/-- Submitting a list of transactions appends it to the mempool in order. -/
lemma submitList_mempool (ts : List Transaction) :
    ∀ s : TransactionStorage, (s.submitList ts).mempool = s.mempool ++ ts := by
  induction ts with
  | nil => intro s; simp [TransactionStorage.submitList]
  | cons t ts ih =>
      intro s
      rw [TransactionStorage.submitList, ih]
      simp [TransactionStorage.send_transaction]

/-- The batches of a drain sequence, concatenated in order, followed by what
remains in the mempool, reconstitute the mempool exactly. -/
lemma drainSeq_flatten (ns : List Nat) :
    ∀ s : TransactionStorage,
      (s.drainSeq ns).1 ++ (s.drainSeq ns).2.mempool = s.mempool := by
  induction ns with
  | nil => intro s; simp [TransactionStorage.drainSeq]
  | cons n ns ih =>
      intro s
      rw [TransactionStorage.drainSeq]
      simp only []
      rw [List.append_assoc, ih]
      simp [TransactionStorage.drain]

/-- Reachable storage states have pairwise distinct receipt keys. -/
lemma reachable_receipt_keys_nodup (s : TransactionStorage)
    (hs : Reachable s) : (s.receipts.map Prod.fst).Nodup := by
  induction hs with
  | base => simp [TransactionStorage.new]
  | send s t _ ih => simpa [TransactionStorage.send_transaction] using ih
  | commit s t r s' _ hc ih =>
      obtain ⟨k, ht⟩ := commit_hash_isSome s t r s' hc
      obtain ⟨hmiss, hrec⟩ := commit_receipts s t r s' k ht hc
      rw [hrec]
      simp only [List.map_cons, List.nodup_cons]
      refine ⟨?_, ih⟩
      rw [← assocGet_eq_none_iff]
      cases hg : assocGet k s.receipts with
      | none => rfl
      | some v => rw [hg] at hmiss; cases hmiss
  | drain s n _ ih => simpa [TransactionStorage.drain] using ih

/-- Once a key is bound to a receipt, any successful run of further
operations keeps that binding. -/
lemma runOps_lookup_stable (h : H256) (r : TransactionReceipt) :
    ∀ (ops : List Op) (s s' : TransactionStorage), runOps s ops = some s' →
      assocGet h s.receipts = some r → assocGet h s'.receipts = some r := by
  intro ops
  induction ops with
  | nil =>
      intro s s' hrun hget
      cases hrun
      exact hget
  | cons op rest ih =>
      intro s s' hrun hget
      rw [runOps] at hrun
      cases hstep : stepOp s op with
      | none => rw [hstep] at hrun; cases hrun
      | some s₁ =>
          rw [hstep] at hrun
          refine ih s₁ s' hrun ?_
          cases op with
          | send t =>
              cases hstep
              simpa [TransactionStorage.send_transaction] using hget
          | drainOp n =>
              cases hstep
              simpa [TransactionStorage.drain] using hget
          | query h' =>
              cases hstep
              exact hget
          | commitOp t r' =>
              have hc : s.commit t r' = some s₁ := hstep
              obtain ⟨k, htk⟩ := commit_hash_isSome s t r' s₁ hc
              obtain ⟨hmiss, hrec⟩ := commit_receipts s t r' s₁ k htk hc
              have hkh : k ≠ h := by
                intro hkh
                rw [hkh, hget] at hmiss
                cases hmiss
              rw [hrec, assocGet_cons_ne h k r' s.receipts hkh]
              exact hget

/-- While no operation commits under a key, a successful run keeps the key
unbound in the receipts index. -/
lemma runOps_lookup_none (h : H256) :
    ∀ (ops : List Op) (s s' : TransactionStorage), runOps s ops = some s' →
      (∀ t r, Op.commitOp t r ∈ ops → t.hash ≠ some h) →
      assocGet h s.receipts = none → assocGet h s'.receipts = none := by
  intro ops
  induction ops with
  | nil =>
      intro s s' hrun _ hget
      cases hrun
      exact hget
  | cons op rest ih =>
      intro s s' hrun hnc hget
      rw [runOps] at hrun
      cases hstep : stepOp s op with
      | none => rw [hstep] at hrun; cases hrun
      | some s₁ =>
          rw [hstep] at hrun
          refine ih s₁ s' hrun (fun t r hmem => hnc t r (List.mem_cons_of_mem _ hmem)) ?_
          cases op with
          | send t =>
              cases hstep
              simpa [TransactionStorage.send_transaction] using hget
          | drainOp n =>
              cases hstep
              simpa [TransactionStorage.drain] using hget
          | query h' =>
              cases hstep
              exact hget
          | commitOp t r' =>
              have hc : s.commit t r' = some s₁ := hstep
              obtain ⟨k, htk⟩ := commit_hash_isSome s t r' s₁ hc
              obtain ⟨_, hrec⟩ := commit_receipts s t r' s₁ k htk hc
              have hkh : k ≠ h := by
                intro hkh
                exact hnc t r' (List.mem_cons_self _ _) (hkh ▸ htk)
              rw [hrec, assocGet_cons_ne h k r' s.receipts hkh]
              exact hget

/-- C1: for every storage state and hash `h`, `get_transaction_receipt h`
returns the error `TransactionNotFound` carrying `h`'s rendering exactly when
no receipt is stored under `h` in the receipts index, returns `Ok` with the
stored receipt exactly when one is, and never returns any other error. -/
theorem get_transaction_receipt_correct (s : TransactionStorage) (h : H256) :
    (s.get_transaction_receipt h =
        .error (ChainError.TransactionNotFound (H256.to_string h)) ↔
      assocGet h s.receipts = none) ∧
    (∀ r, s.get_transaction_receipt h = .ok r ↔
      assocGet h s.receipts = some r) ∧
    (∀ e, s.get_transaction_receipt h = .error e →
      e = ChainError.TransactionNotFound (H256.to_string h)) := by
  unfold TransactionStorage.get_transaction_receipt
  cases hl : assocGet h s.receipts <;> simp_all

/-- Witness for C1 at a concrete committed state: the stored receipt is
returned in `Ok`. -/
theorem get_transaction_receipt_correct_witness :
    st1.get_transaction_receipt ⟨42⟩ = .ok rc0 :=
  ((get_transaction_receipt_correct st1 ⟨42⟩).2.1 rc0).mpr (by decide)

/-- C4: `send_transaction` appends the transaction as the new last element of
the mempool, leaves every previously held element in place and in its prior
order, and is total (no error path, no size limit): the resulting mempool is
exactly the old one with the transaction appended. -/
theorem send_transaction_appends (s : TransactionStorage) (t : Transaction) :
    (s.send_transaction t).mempool = s.mempool ++ [t] ∧
    (s.send_transaction t).mempool.getLast? = some t ∧
    (s.send_transaction t).mempool.take s.mempool.length = s.mempool ∧
    (s.send_transaction t).mempool.length = s.mempool.length + 1 := by
  refine ⟨rfl, ?_, ?_, ?_⟩ <;>
    simp [TransactionStorage.send_transaction, List.take_left]

/-- C10: `send_transaction` modifies only the mempool — the processed and
receipts indexes are untouched — and enqueues unconditionally, with no
duplicate check: even a transaction already present (or whose hash already
has a receipt, which the function never consults) is appended again,
raising its multiplicity by one. -/
theorem send_transaction_frame (s : TransactionStorage) (t : Transaction) :
    (s.send_transaction t).processed = s.processed ∧
    (s.send_transaction t).receipts = s.receipts ∧
    (s.send_transaction t).mempool = s.mempool ++ [t] ∧
    (s.send_transaction t).mempool.count t = s.mempool.count t + 1 := by
  refine ⟨rfl, rfl, rfl, ?_⟩
  simp [TransactionStorage.send_transaction]

/-- C9: a receipt query is read-only: executing `get_transaction_receipt` as
a call leaves the storage exactly as it was — mempool contents and order,
processed index and receipts index — whether the lookup succeeds or fails. -/
theorem get_transaction_receipt_frame (s : TransactionStorage) (h : H256) :
    (∃ r, s.get_transaction_receipt h = .ok r ∧
        stepOp s (Op.query h) = some s) ∨
    (s.get_transaction_receipt h =
        .error (ChainError.TransactionNotFound (H256.to_string h)) ∧
      stepOp s (Op.query h) = some s) := by
  unfold TransactionStorage.get_transaction_receipt
  cases hl : assocGet h s.receipts with
  | none => exact Or.inr ⟨rfl, rfl⟩
  | some r => exact Or.inl ⟨r, rfl, rfl⟩

/-- C7: the one-argument balance query is definitionally the by-block query
at the current-block selector: `get_balance address` returns exactly
`get_balance_by_block address None`, on success and on every error alike. -/
theorem get_balance_eq_get_balance_by_block_none (w : Web3) (a : Account) :
    w.get_balance a = w.get_balance_by_block a none := by
  unfold Web3.get_balance
  cases hb : w.get_balance_by_block a none <;>
    simp [hb, bind, Except.bind, pure, Except.pure]

/-- C8: `sign_transaction` returns `Ok` with the signed transaction exactly
when the signing capability succeeds, and when signing fails it returns the
typed error `TransactionSigningError` built from the transaction's hash and
the failure message — never any other error. -/
theorem sign_transaction_correct (w : Web3)
    (sign : Transaction → SecretKey → Except String SignedTransaction)
    (t : Transaction) (k : SecretKey) :
    (∀ s, w.sign_transaction sign t k = .ok s ↔ sign t k = .ok s) ∧
    (∀ e, sign t k = .error e →
      w.sign_transaction sign t k =
        .error (Web3Error.TransactionSigningError
          (hashDebug t.hash ++ " " ++ e))) ∧
    (∀ err, w.sign_transaction sign t k = .error err →
      ∃ msg, err = Web3Error.TransactionSigningError msg) := by
  unfold Web3.sign_transaction
  cases hs : sign t k <;> simp_all

/-- Witness for C8 at a concrete failing signer: the typed signing error is
produced. -/
theorem sign_transaction_correct_witness :
    w0.sign_transaction signFail tx0 key0 =
      .error (Web3Error.TransactionSigningError
        (hashDebug tx0.hash ++ " " ++ "bad key")) :=
  (sign_transaction_correct w0 signFail tx0 key0).2.1 "bad key" rfl

/-- C2: in every reachable storage state each hash maps to at most one
receipt in the receipts index, and `commit` on a hash that already has a
receipt fails fatally (yields `none`) instead of silently overwriting. -/
theorem receipts_write_once (s : TransactionStorage) (hs : Reachable s) :
    (∀ h, (s.receipts.map Prod.fst).count h ≤ 1) ∧
    (∀ (t : Transaction) (r : TransactionReceipt) (h : H256),
      t.hash = some h → (assocGet h s.receipts).isSome = true →
      s.commit t r = none) := by
  constructor
  · exact fun h =>
      List.nodup_iff_count_le_one.mp (reachable_receipt_keys_nodup s hs) h
  · intro t r h ht hmem
    unfold TransactionStorage.commit
    rw [ht]
    dsimp only
    rw [if_pos hmem]

/-- Witness for C2 at the concrete reachable state holding `rc0` for `tx0`'s
hash: the keys are duplicate-free and a second commit for the hash fails. -/
theorem receipts_write_once_witness :
    (st1.receipts.map Prod.fst).count ⟨42⟩ ≤ 1 ∧ st1.commit tx0 rc0 = none := by
  have hreach : Reachable st1 :=
    Reachable.commit TransactionStorage.new tx0 rc0 st1 Reachable.base (by decide)
  have h := receipts_write_once st1 hreach
  exact ⟨h.1 ⟨42⟩, h.2 tx0 rc0 ⟨42⟩ rfl (by decide)⟩

/-- C3: transactions submitted in a given order sit in the mempool in exactly
that order (FIFO), every single drain returns the oldest prefix in that
order, and any sequence of drains yields batches whose concatenation,
followed by the untouched remainder, is the submission order itself. -/
theorem mempool_fifo_drain_order (ts : List Transaction) (ns : List Nat) :
    (TransactionStorage.new.submitList ts).mempool = ts ∧
    (∀ n, ((TransactionStorage.new.submitList ts).drain n).1 = ts.take n) ∧
    ((TransactionStorage.new.submitList ts).drainSeq ns).1 ++
      ((TransactionStorage.new.submitList ts).drainSeq ns).2.mempool = ts := by
  have hmem : (TransactionStorage.new.submitList ts).mempool = ts := by
    rw [submitList_mempool]
    simp [TransactionStorage.new]
  refine ⟨hmem, fun n => ?_, ?_⟩
  · rw [TransactionStorage.drain, hmem]
  · rw [drainSeq_flatten, hmem]

/-- C5: before any commit for `h` in a run of operations from the fresh
storage, every receipt query for `h` returns `TransactionNotFound`; after
one successful commit for `h`, every query for `h` at any later point of any
successful continuation returns that same receipt (a second commit for `h`
cannot succeed, so the stored value never changes). -/
theorem receipt_lookup_lifecycle (h : H256) :
    (∀ (ops : List Op) (s : TransactionStorage),
      runOps TransactionStorage.new ops = some s →
      (∀ t r, Op.commitOp t r ∈ ops → t.hash ≠ some h) →
      s.get_transaction_receipt h =
        .error (ChainError.TransactionNotFound (H256.to_string h))) ∧
    (∀ (s : TransactionStorage) (t : Transaction) (r : TransactionReceipt)
      (s' : TransactionStorage) (ops : List Op) (s'' : TransactionStorage),
      t.hash = some h → s.commit t r = some s' → runOps s' ops = some s'' →
      s''.get_transaction_receipt h = .ok r) := by
  constructor
  · intro ops s hrun hnc
    have hnone : assocGet h s.receipts = none :=
      runOps_lookup_none h ops TransactionStorage.new s hrun hnc
        (by simp [TransactionStorage.new, assocGet])
    unfold TransactionStorage.get_transaction_receipt
    rw [hnone]
  · intro s t r s' ops s'' ht hc hrun
    obtain ⟨_, hrec⟩ := commit_receipts s t r s' h ht hc
    have hbound : assocGet h s'.receipts = some r := by
      rw [hrec, assocGet_cons_self]
    have hstable := runOps_lookup_stable h r ops s' s'' hrun hbound
    unfold TransactionStorage.get_transaction_receipt
    rw [hstable]

/-- Witness for C5: from the fresh storage, commit `tx0`'s receipt, run one
further submit, and the query still returns that receipt. -/
theorem receipt_lookup_lifecycle_witness :
    (st1.send_transaction tx0).get_transaction_receipt ⟨42⟩ = .ok rc0 :=
  (receipt_lookup_lifecycle ⟨42⟩).2 TransactionStorage.new tx0 rc0 st1
    [Op.send tx0] (st1.send_transaction tx0) rfl (by decide) rfl

/-- Counterexample for C6 as stated: from the fresh storage, with no drain
ever performed, submit `tx0` and then submit `tx0` again; immediately after
that second submit the transaction is present twice, not exactly once — the
code appends unconditionally. -/
theorem submit_presence_counterexample :
    ¬ ((TransactionStorage.new.send_transaction tx0).send_transaction
        tx0).mempool.count tx0 = 1 := by
  decide

/-- C6 (amended): immediately after `send_transaction t` and before any
drain, `t`'s multiplicity in the mempool is exactly one more than before the
call; in particular `t` is present exactly once whenever it was not already
present. -/
theorem send_transaction_presence (s : TransactionStorage) (t : Transaction) :
    (s.send_transaction t).mempool.count t = s.mempool.count t + 1 ∧
    (t ∉ s.mempool → (s.send_transaction t).mempool.count t = 1) := by
  have hc : (s.send_transaction t).mempool.count t = s.mempool.count t + 1 := by
    simp [TransactionStorage.send_transaction]
  refine ⟨hc, fun hn => ?_⟩
  rw [hc, List.count_eq_zero_of_not_mem hn]

/-- Witness for C6 (amended) at the fresh storage: the first submission of
`tx0` leaves it present exactly once. -/
theorem send_transaction_presence_witness :
    (TransactionStorage.new.send_transaction tx0).mempool.count tx0 = 1 :=
  (send_transaction_presence TransactionStorage.new tx0).2 (by decide)
